import Mathlib

/-!
Shallow embedding of `robustpca.py`, the bootstrap and iteration orchestrator
of the robust iterative PCA technique of Budavari et al. 2009.

Conventions of the embedding:
* Machine floats are modelled by `ℚ` wherever the data is finite (the pipeline
  runs after the external sanitizer, which removes non-finite values).  Where
  NaN genuinely arises (masking writes `np.nan`; the decomposition rejects
  non-finite input) values are modelled by `PyFloat`, which carries an explicit
  NaN and infinities.
* 2-d numpy arrays are lists of rows; `data[i, j]` is entry `j` of row `i`.
* The implicit global numpy random generator is modelled by an ambient stream
  `perms : ℕ → List ℕ` of the successive outputs of `np.random.shuffle`
  applied to `arange(N)`; shuffle call number `k` uses `perms k`.
* External collaborators (`np.linalg.svd`'s numeric output, `np.sqrt`,
  `core.cauchy_like_function`, its derivative, `core.iterate_PCA`,
  `core.iterate_PCA_with_data_gaps`, `util.check_and_make_data_finite`) are
  abstracted as function parameters: every claim below holds for arbitrary
  instantiations of them.
* Stateful code is embedded by explicit state passing (`LoopState`); in-place
  numpy mutation (`residuals[error_map==0] = np.nan`) is modelled by returning
  the post-call buffer alongside the function's value.
-/

namespace RobustPCA

/-- A Python float value: either a finite rational or one of the non-finite
sentinels (`nan`, `inf`, `-inf`). -/
inductive PyFloat where
  | num (q : ℚ)
  | nan
  | pinf
  | ninf
deriving DecidableEq, Repr

/-- Finiteness test: only `num` values are finite. -/
def PyFloat.isFinite : PyFloat → Bool
  | .num _ => true
  | _ => false

/-- Extract the rational of a finite value (unused on non-finite input: every
call site first checks finiteness). -/
def PyFloat.toRat : PyFloat → ℚ
  | .num q => q
  | _ => 0

/-- Arithmetic mean of a list, `np.nanmean` on finite data (`ℚ` division by
zero gives 0 on the empty list, where numpy would give NaN; no claim touches
the empty case). -/
def listMean (l : List ℚ) : ℚ := l.sum / (l.length : ℚ)

/-- Entry `j` of a row, 0 past the end (rows are rectangular in every use). -/
def entryD (row : List ℚ) (j : ℕ) : ℚ := row.getD j 0

/-- Column `j` of a row-major matrix. -/
def column (m : List (List ℚ)) (j : ℕ) : List ℚ := m.map (fun row => entryD row j)

/-- Matrix transpose (`array.T`), via the matrix's leading row width. -/
def transposeQ (m : List (List ℚ)) : List (List ℚ) :=
  (List.range (m.headD []).length).map (fun j => column m j)

/-- Dot product of two vectors. -/
def dotQ (xs ys : List ℚ) : ℚ := ((xs.zip ys).map (fun p => p.1 * p.2)).sum

/-- `np.matmul` on row-major matrices: entry `(i, j)` is row `i` of `A` dotted
with column `j` of `B`. -/
def matMul (A B : List (List ℚ)) : List (List ℚ) :=
  A.map (fun row => (List.range (B.headD []).length).map (fun j => dotQ row (column B j)))

/-- `mean_subtracted_data`: feature-wise `np.nanmean(data, axis=0)` over the
whole data, subtracted from every row.  The `errors` parameter is accepted and
ignored, exactly as in the source (its docstring records this as a TODO). -/
def mean_subtracted_data (data : List (List ℚ)) (_errors : Option (List (List ℚ))) :
    List (List ℚ) × List ℚ :=
  let vector_mean := (List.range (data.headD []).length).map
    (fun j => listMean (column data j))
  (data.map (fun row => List.zipWith (fun a b => a - b) row vector_mean), vector_mean)

/-- `np.linalg.svd(data)[1:]` on a possibly non-finite matrix.  numpy raises
`LinAlgError` when the input contains NaNs or infs; the numeric decomposition
on finite input is abstracted as `svdFn`, returning
`(singular_values, eigen_vectors_T)`. -/
def np_linalg_svd (svdFn : List (List ℚ) → List ℚ × List (List ℚ))
    (data : List (List PyFloat)) : Except Unit (List ℚ × List (List ℚ)) :=
  if data.all (fun row => row.all PyFloat.isFinite) then
    Except.ok (svdFn (data.map (fun row => row.map PyFloat.toRat)))
  else
    Except.error ()

/-- The exact message of the `TypeError` raised by `do_initial_SVD` when the
decomposition rejects non-finite input. -/
def svd_error_message : String :=
  "Cannot have nans present in the data. Please set NaNs and infs to a reasonable finite number before running the PCA. These bad values are reconstructed using the gappy routines by setting the `errors` array to the value `0` at these locations to indicate these are masked values.To do this, you can use the convenience function `replace_nonfinite_with_median`"

/-- `do_initial_SVD`: runs the decomposition, converting the library failure on
non-finite input into the source's `TypeError` with `svd_error_message`. -/
def do_initial_SVD (svdFn : List (List ℚ) → List ℚ × List (List ℚ))
    (data : List (List PyFloat)) : Except String (List (List ℚ) × List ℚ) :=
  match np_linalg_svd svdFn data with
  | Except.ok (singular_values, eigen_vectors_T) =>
      Except.ok (eigen_vectors_T, singular_values)
  | Except.error _ => Except.error svd_error_message

/-- `get_eigen_system` on finite (sanitized) data: eigenvectors are the
transposed right singular vectors, eigenvalues the squared singular values.
On finite input the decomposition never fails (see `np_linalg_svd`), so this
is its total restriction. -/
def get_eigen_system (svdFn : List (List ℚ) → List ℚ × List (List ℚ))
    (data : List (List ℚ)) : List (List ℚ) × List ℚ :=
  let sv := svdFn data
  (transposeQ sv.2, sv.1.map (fun s => s ^ 2))

/-- `initalise_eigensystem`: normalizes the centred data by `1/√N` (the square
root, an irrational external numeric, is abstracted as `sqrtFn`) before the
decomposition. -/
def initalise_eigensystem (svdFn : List (List ℚ) → List ℚ × List (List ℚ))
    (sqrtFn : ℚ → ℚ) (data_centred : List (List ℚ)) : List (List ℚ) × List ℚ :=
  let amount_of_data_vectors : ℚ := (data_centred.length : ℚ)
  let data_normed := data_centred.map
    (fun row => row.map (fun x => x / sqrtFn amount_of_data_vectors))
  get_eigen_system svdFn data_normed

/-- `reconstruct_observation`: `np.matmul(observation_vector, eigen_by_transpose)`. -/
def reconstruct_observation (eigen_by_transpose observation_vector : List (List ℚ)) :
    List (List ℚ) :=
  matMul observation_vector eigen_by_transpose

/-- `get_residual`: observation minus its reconstruction through `E·Eᵗ`. -/
def get_residual (observation_vector eigen_vector_matrix : List (List ℚ)) :
    List (List ℚ) :=
  let eigen_by_transpose := matMul eigen_vector_matrix (transposeQ eigen_vector_matrix)
  let reconstruct := reconstruct_observation eigen_by_transpose observation_vector
  List.zipWith (fun r c => List.zipWith (fun a b => a - b) r c) observation_vector reconstruct

/-- One row of `residuals[error_map==0] = np.nan`: entries whose mask value is
zero are overwritten with NaN. -/
def maskRow (r m : List ℚ) : List PyFloat :=
  (r.zip m).map (fun p => if p.2 = 0 then PyFloat.nan else PyFloat.num p.1)

/-- `np.nansum(row**2)` for a row whose entries are finite or NaN (the only
values masking can produce): squares of NaN entries are NaN and are ignored by
the sum. -/
def nansumSqRow (r : List PyFloat) : ℚ :=
  (r.filterMap (fun v => match v with
    | PyFloat.num q => some (q ^ 2)
    | _ => none)).sum

/-- `mag_residual_sq`: per-observation squared magnitude of the residuals with
optional masking.  The mask is first truncated to the residual row count
(`error_map[:residuals.shape[0]]`), then masked entries are overwritten with
NaN in the residuals buffer itself; the function's value is
`np.nansum(residuals**2, axis=1)`.  The in-place numpy mutation is modelled by
also returning the post-call residuals buffer. -/
def mag_residual_sq (residuals : List (List ℚ)) (error_map : Option (List (List ℚ))) :
    List ℚ × List (List PyFloat) :=
  match error_map with
  | none =>
      let buffer := residuals.map (fun r => r.map PyFloat.num)
      (buffer.map nansumSqRow, buffer)
  | some em =>
      let em' := em.take residuals.length
      let buffer := (residuals.zip em').map (fun p => maskRow p.1 p.2)
      (buffer.map nansumSqRow, buffer)

/-- `get_mag_residuals_sq`: squared residual magnitudes of centred data against
an eigen-basis (first component; the second is the residual buffer left behind
by `mag_residual_sq`, never read by callers). -/
def get_mag_residuals_sq (data eigen_vectors : List (List ℚ))
    (error_map : Option (List (List ℚ))) : List ℚ × List (List PyFloat) :=
  mag_residual_sq (get_residual data eigen_vectors) error_map

/-- `initalise_scale_using_residuals_sq`: starts from the plain mean of the
squared residuals and runs exactly `amount_of_eigen` refinement rounds, with
no convergence test: `t = residuals_sq/scale_sq`,
`scale_sq *= mean(robust_function(t, c_sq)) / breakdown_point`. -/
def initalise_scale_using_residuals_sq (residuals_sq : List ℚ) (breakdown_point : ℚ)
    (amount_of_eigen : ℕ) (robust_function : ℚ → ℚ → ℚ) (c_sq : ℚ) : ℚ :=
  (List.range amount_of_eigen).foldl
    (fun scale_sq _ =>
      scale_sq * (listMean (residuals_sq.map (fun r => robust_function (r / scale_sq) c_sq))
        / breakdown_point))
    (listMean residuals_sq)

/-- `initalise_vqu`: per-column mean of
`column_stack([weight1, weight1*residuals_sq, ones])` where
`weight1 = robust_derivative(residuals_sq/scale_sq, c_sq)`. -/
def initalise_vqu (residuals_sq : List ℚ) (scale_sq : ℚ)
    (robust_derivative : ℚ → ℚ → ℚ) (c_sq : ℚ) : List ℚ :=
  let weight1 := residuals_sq.map (fun r => robust_derivative (r / scale_sq) c_sq)
  [listMean weight1,
   listMean (List.zipWith (fun w r => w * r) weight1 residuals_sq),
   listMean (List.replicate residuals_sq.length 1)]

/-- The eigen-system bundle threaded through every update
(`{'U', 'm', 'W', 'vqu', 'sig2'}`). -/
structure EigenSystemDict where
  U : List (List ℚ)
  m : List ℚ
  W : List ℚ
  vqu : List ℚ
  sig2 : ℚ
deriving DecidableEq, Repr

/-- `input_for_pca`: assembles the initial eigen-system dictionary. -/
def input_for_pca (mean_array : List ℚ) (eigen_values : List ℚ)
    (eigen_vectors : List (List ℚ)) (scale_sq : ℚ) (vqu : List ℚ) : EigenSystemDict :=
  { U := eigen_vectors, m := mean_array, W := eigen_values, vqu := vqu, sig2 := scale_sq }

/-- `forget_parameter`: `1 - 1/(amount_of_spectra * memory)`. -/
def forget_parameter (amount_of_spectra : ℕ) (memory : ℚ) : ℚ :=
  1 - 1 / ((amount_of_spectra : ℚ) * memory)

/-- `initalise_robust_pca_param`: the bootstrap.  The mean and the eigen-basis
are computed from the whole (already shuffled) data; the squared residuals
feeding the scale and vqu initialisers are restricted to the first
`amount_to_initalise` centred rows. -/
def initalise_robust_pca_param (svdFn : List (List ℚ) → List ℚ × List (List ℚ))
    (sqrtFn : ℚ → ℚ) (robust_function robust_derivative : ℚ → ℚ → ℚ)
    (data : List (List ℚ)) (errors : Option (List (List ℚ)))
    (amount_of_eigen amount_to_initalise : ℕ) (breakdown_point c_sq : ℚ) :
    EigenSystemDict :=
  let centred := mean_subtracted_data data errors
  let eigen := initalise_eigensystem svdFn sqrtFn centred.1
  let eigen_vectors_initial := eigen.1.map (fun row => row.take amount_of_eigen)
  let eigen_values_initial := eigen.2.take amount_of_eigen
  let residuals_sq := (get_mag_residuals_sq (centred.1.take amount_to_initalise)
    eigen_vectors_initial errors).1
  let scale_sq_initial := initalise_scale_using_residuals_sq residuals_sq breakdown_point
    amount_of_eigen robust_function c_sq
  let vqu_initial := initalise_vqu residuals_sq scale_sq_initial robust_derivative c_sq
  input_for_pca centred.2 eigen_values_initial eigen_vectors_initial scale_sq_initial
    vqu_initial

/-- Apply a list of row indices to a list (`data[random_indicies]` for an
index array produced by shuffling `arange(N)`); out-of-range indices are
dropped (numpy would raise, and every claim below supplies a genuine
permutation). -/
def applyPerm {α : Type} (perm : List ℕ) (xs : List α) : List α :=
  perm.filterMap (fun i => xs[i]?)

/-- `randomise_data_order`: permutes the data, and the errors by the very same
index array unless they are absent (`errors is None`) or a list of `None`
placeholders (`errors[0] is None`, tested through `isNoneB`).  The permutation
(the result of `np.random.shuffle` on `arange(N)`) is an explicit input, the
model of the hidden global generator. -/
def randomise_data_order {α β : Type} (isNoneB : β → Bool) (perm : List ℕ)
    (data : List α) (errors : Option (List β)) : List α × Option (List β) :=
  let data_random := applyPerm perm data
  match errors with
  | none => (data_random, none)
  | some es =>
      if (es.head?.map isNoneB).getD false then (data_random, some es)
      else (data_random, some (applyPerm perm es))

/-- The diagnostic buffer (`{'W', 'sig2', 'vqu'}`), one row per update step. -/
structure TrackedDict where
  W : List (List ℚ)
  sig2 : List ℚ
  vqu : List ℚ
deriving DecidableEq, Repr

/-- `initialise_tracked_eigen_updates`: zero arrays with `save_amount` rows. -/
def initialise_tracked_eigen_updates (save_amount amount_of_eigen : ℕ) : TrackedDict :=
  { W := List.replicate save_amount (List.replicate amount_of_eigen 0),
    sig2 := List.replicate save_amount 0,
    vqu := List.replicate save_amount 0 }

/-- `track_eigensystem_updates`: on the very first call (counter 0) allocates
the buffer, then records the current eigenvalues, first vqu component and
scale² at row `counter` and increments the counter.  `List.set` models the
in-place numpy row assignment. -/
def track_eigensystem_updates (counter : ℕ) (eigen_system_dict : EigenSystemDict)
    (tracked : TrackedDict) (save_amount : ℕ) : TrackedDict × ℕ :=
  let tracked := if counter = 0 then
      initialise_tracked_eigen_updates save_amount eigen_system_dict.W.length
    else tracked
  ({ W := tracked.W.set counter eigen_system_dict.W,
     sig2 := tracked.sig2.set counter eigen_system_dict.sig2,
     vqu := tracked.vqu.set counter (eigen_system_dict.vqu.getD 0 0) },
   counter + 1)

/-- The mutable state of `run_robust_pca`'s loop, passed explicitly: the
(shuffled) data and per-observation error rows, the eigen-system, the step
counter and the diagnostic buffer. -/
structure LoopState where
  data : List (List ℚ)
  errs : List (Option (List ℚ))
  esd : EigenSystemDict
  counter : ℕ
  tracked : TrackedDict

/-- The signature of the external single-step updaters `core.iterate_PCA` and
`core.iterate_PCA_with_data_gaps`:
`state × observation × α × (mask row | none) × breakdown_point × c_sq → state`. -/
def PcaFn : Type :=
  EigenSystemDict → List ℚ → ℚ → Option (List ℚ) → ℚ → ℚ → EigenSystemDict

/-- One iteration of the inner loop of `run_robust_pca`: record the
pre-transition state as one diagnostic row, then apply the external updater to
observation `sp`. -/
def pca_step (pcaFn : PcaFn) (forget_param breakdown_point c_sq : ℚ)
    (save_amount : ℕ) (st : LoopState) (sp : ℕ) : LoopState :=
  let tc := track_eigensystem_updates st.counter st.esd st.tracked save_amount
  let esd := pcaFn st.esd (st.data.getD sp []) forget_param (st.errs.getD sp none)
    breakdown_point c_sq
  { data := st.data, errs := st.errs, esd := esd, counter := tc.2, tracked := tc.1 }

/-- The inner loop `for sp in range(start, amount_of_spectra)`, as a fold. -/
def run_pass (pcaFn : PcaFn) (forget_param breakdown_point c_sq : ℚ)
    (save_amount : ℕ) (idxs : List ℕ) (st : LoopState) : LoopState :=
  idxs.foldl (pca_step pcaFn forget_param breakdown_point c_sq save_amount) st

/-- An end-of-pass reshuffle of data and errors inside the loop: the errors
are by now a list, whose head is `None` exactly when no mask was supplied. -/
def shuffle_state (perm : List ℕ) (st : LoopState) : LoopState :=
  let de := randomise_data_order Option.isNone perm st.data (some st.errs)
  { data := de.1, errs := de.2.getD st.errs, esd := st.esd, counter := st.counter,
    tracked := st.tracked }

/-- The pass loop `for k in range(number_of_iterations)`, threading the
mutable `start` variable (seed size on the first pass, reset to 0 after it)
and the index of the next `np.random.shuffle` call; every pass ends with a
reshuffle, exactly as in the source. -/
def run_passes (perms : ℕ → List ℕ) (pcaFn : PcaFn)
    (forget_param breakdown_point c_sq : ℚ) (save_amount N : ℕ) :
    ℕ → ℕ → ℕ → LoopState → LoopState
  | _start, _shuffleIdx, 0, st => st
  | start, shuffleIdx, r + 1, st =>
      let st1 := run_pass pcaFn forget_param breakdown_point c_sq save_amount
        (List.range' start (N - start)) st
      let st2 := shuffle_state (perms shuffleIdx) st1
      run_passes perms pcaFn forget_param breakdown_point c_sq save_amount N
        0 (shuffleIdx + 1) r st2

/-- The external collaborators of `run_robust_pca`, abstracted: the sanitizer
`util.check_and_make_data_finite`, the two incremental updaters, the numeric
decomposition and square root, the default robust weighting function and its
derivative (`core.cauchy_like_function` and `core.derivate_of_cauchy_like_function`,
the defaults used by the bootstrap call), and the ambient shuffle stream. -/
structure RunArgs where
  sanitizeFn : List (List ℚ) × Option (List (List ℚ)) → List (List ℚ) × Option (List (List ℚ))
  pcaFn : PcaFn
  pcaGapFn : PcaFn
  svdFn : List (List ℚ) → List ℚ × List (List ℚ)
  sqrtFn : ℚ → ℚ
  robustF : ℚ → ℚ → ℚ
  robustD : ℚ → ℚ → ℚ
  perms : ℕ → List ℕ

/-- The observation count `amount_of_spectra = data.shape[0]`, read after
sanitizing. -/
def run_N (A : RunArgs) (data : List (List ℚ)) (errors : Option (List (List ℚ))) : ℕ :=
  (A.sanitizeFn (data, errors)).1.length

/-- The state of `run_robust_pca` just before its pass loop: data sanitized
and shuffled once (`perms 0`), the eigen-system bootstrapped by
`initalise_robust_pca_param` (which the source calls with its default robust
function, derivative and `c_sq = 0.787**2`), the updater-facing error list
built (`[None] * amount_of_spectra` when no mask is present), the counter at 0
and the diagnostic buffer not yet allocated. -/
def run_setup (A : RunArgs) (data : List (List ℚ)) (errors : Option (List (List ℚ)))
    (amount_of_eigen amount_to_initalise : ℕ) (breakdown_point : ℚ) : LoopState :=
  let sanitized := A.sanitizeFn (data, errors)
  let N := sanitized.1.length
  let shuffled := randomise_data_order (fun _ => false) (A.perms 0) sanitized.1 sanitized.2
  let esd := initalise_robust_pca_param A.svdFn A.sqrtFn A.robustF A.robustD
    shuffled.1 shuffled.2 amount_of_eigen amount_to_initalise breakdown_point
    ((787 / 1000) ^ 2)
  let errs := match shuffled.2 with
    | none => List.replicate N (none : Option (List ℚ))
    | some es => es.map some
  { data := shuffled.1, errs := errs, esd := esd, counter := 0,
    tracked := { W := [], sig2 := [], vqu := [] } }

/-- The updater selected by `run_robust_pca`: the gappy variant when a mask
survives sanitizing and shuffling, the plain one otherwise. -/
def run_selected_pca (A : RunArgs) (data : List (List ℚ))
    (errors : Option (List (List ℚ))) : PcaFn :=
  let sanitized := A.sanitizeFn (data, errors)
  let shuffled := randomise_data_order (fun _ => false) (A.perms 0) sanitized.1 sanitized.2
  match shuffled.2 with
  | none => A.pcaFn
  | some _ => A.pcaGapFn

/-- The forget parameter resolved by `run_robust_pca`: the supplied value if
any, else `forget_parameter(amount_of_spectra, memory)`. -/
def run_forget (A : RunArgs) (data : List (List ℚ)) (errors : Option (List (List ℚ)))
    (forget_param : Option ℚ) (memory : ℚ) : ℚ :=
  forget_param.getD (forget_parameter (run_N A data errors) memory)

/-- The final loop state of `run_robust_pca`.  The statement
`np.random.seed = 1` in the source rebinds the module attribute instead of
calling `np.random.seed(1)`: it never seeds the generator, so the shuffle
stream `A.perms` is unaffected both by it and by the `random_seed` argument,
which is consequently unused.  `save_amount` is computed once, up front. -/
def run_robust_pca_state (A : RunArgs) (data : List (List ℚ))
    (errors : Option (List (List ℚ))) (amount_of_eigen amount_to_initalise : ℕ)
    (number_of_iterations : ℕ) (forget_param : Option ℚ)
    (breakdown_point memory c_sq : ℚ) (_random_seed : ℤ) : LoopState :=
  let N := run_N A data errors
  let save_amount := N * number_of_iterations - amount_to_initalise + 1
  run_passes A.perms (run_selected_pca A data errors)
    (run_forget A data errors forget_param memory) breakdown_point c_sq save_amount N
    amount_to_initalise 1 number_of_iterations
    (run_setup A data errors amount_of_eigen amount_to_initalise breakdown_point)

/-- `run_robust_pca`'s returned value: the final eigen-system, plus the
diagnostic buffer when `save_extra_param` is set. -/
def run_robust_pca (A : RunArgs) (data : List (List ℚ))
    (errors : Option (List (List ℚ))) (amount_of_eigen amount_to_initalise : ℕ)
    (number_of_iterations : ℕ) (forget_param : Option ℚ)
    (breakdown_point memory : ℚ) (save_extra_param : Bool) (c_sq : ℚ)
    (random_seed : ℤ) : EigenSystemDict × Option TrackedDict :=
  let final := run_robust_pca_state A data errors amount_of_eigen amount_to_initalise
    number_of_iterations forget_param breakdown_point memory c_sq random_seed
  (final.esd, if save_extra_param then some final.tracked else none)

/-! ### Spec-side reformulations used by refinement claims -/

/-- One refinement round of the robust scale estimator, as §4.4 of the spec
words it: `scale² ← scale² × mean(weight(t, shape)) / breakdown_point` with
`t = residual²/scale²`. -/
def scaleRoundSpec (residuals_sq : List ℚ) (breakdown_point : ℚ)
    (robust_function : ℚ → ℚ → ℚ) (c_sq : ℚ) (scale_sq : ℚ) : ℚ :=
  scale_sq * (listMean (residuals_sq.map (fun r => robust_function (r / scale_sq) c_sq))
    / breakdown_point)

/-- The seed squared residuals the bootstrap feeds to the scale and vqu
initialisers: masked squared residuals of the first `amount_to_initalise`
centred observations against the truncated eigen-basis. -/
def bootstrapSeedResidualsSq (svdFn : List (List ℚ) → List ℚ × List (List ℚ))
    (sqrtFn : ℚ → ℚ) (data : List (List ℚ)) (errors : Option (List (List ℚ)))
    (amount_of_eigen amount_to_initalise : ℕ) : List ℚ :=
  let centred := mean_subtracted_data data errors
  let eigen := initalise_eigensystem svdFn sqrtFn centred.1
  (get_mag_residuals_sq (centred.1.take amount_to_initalise)
    (eigen.1.map (fun row => row.take amount_of_eigen)) errors).1

/-- The spec's per-observation masked squared residual: the sum of squared
entries over exactly the features the mask does not flag bad. -/
def maskedSumSpec (r m : List ℚ) : ℚ :=
  (((r.zip m).filter (fun p => p.2 ≠ 0)).map (fun p => p.1 ^ 2)).sum

/-! ### Helper lemmas -/

theorem foldl_const_eq_iterate {α : Type} (g : α → α) (K : ℕ) (x : α) :
    (List.range K).foldl (fun a _ => g a) x = g^[K] x := by
  induction K with
  | zero => rfl
  | succ n ih =>
      rw [List.range_succ, List.foldl_append, ih, Function.iterate_succ_apply']
      rfl

theorem listMean_replicate_zero (n : ℕ) : listMean (List.replicate n (0 : ℚ)) = 0 := by
  simp [listMean]

theorem listMean_replicate (n : ℕ) (x : ℚ) (h : n ≠ 0) :
    listMean (List.replicate n x) = x := by
  have hn : ((n : ℚ)) ≠ 0 := by exact_mod_cast h
  simp [listMean, List.sum_replicate, nsmul_eq_mul]
  field_simp

/-! ### C1 -/

/-- C1: the claim says the bootstrap derives the initial mean (among the rest)
from only the first `seed_size` observations.  Counterexample: two datasets
agreeing on the seed subset (`seed_size = 1`) give different bootstrap means,
because `mean_subtracted_data` averages the whole dataset — as the source's
own NOTES record. -/
theorem c1_counterexample :
    (([[0], [2]] : List (List ℚ)).take 1 = ([[0], [4]] : List (List ℚ)).take 1) ∧
    (initalise_robust_pca_param (fun _ => ([], [])) id (fun _ _ => 1) (fun _ _ => 1)
        [[0], [2]] none 0 1 (1 / 2) 1).m ≠
      (initalise_robust_pca_param (fun _ => ([], [])) id (fun _ _ => 1) (fun _ _ => 1)
        [[0], [4]] none 0 1 (1 / 2) 1).m := by
  constructor
  · rfl
  · have h2 : (initalise_robust_pca_param (fun _ => ([], [])) id (fun _ _ => 1)
        (fun _ _ => 1) [[0], [2]] none 0 1 (1 / 2) 1).m = [1] := by
      norm_num [initalise_robust_pca_param, mean_subtracted_data, input_for_pca, column,
        entryD, listMean, List.range_succ]
    have h4 : (initalise_robust_pca_param (fun _ => ([], [])) id (fun _ _ => 1)
        (fun _ _ => 1) [[0], [4]] none 0 1 (1 / 2) 1).m = [2] := by
      norm_num [initalise_robust_pca_param, mean_subtracted_data, input_for_pca, column,
        entryD, listMean, List.range_succ]
    rw [h2, h4]
    intro h
    exact absurd (List.head_eq_of_cons_eq h) (by norm_num)

/-- C1 (amended): the bootstrap derives the initial mean vector and eigen-basis
from the ENTIRE dataset (feature-wise mean of all rows; decomposition of all
centred rows, truncated to K); only the robust scale estimate and the
running-statistic triple are restricted to the seed subset, being computed
from the masked squared residuals of the first `amount_to_initalise` centred
observations. -/
theorem c1_bootstrap_data_usage (svdFn : List (List ℚ) → List ℚ × List (List ℚ))
    (sqrtFn : ℚ → ℚ) (f d : ℚ → ℚ → ℚ) (data : List (List ℚ))
    (errors : Option (List (List ℚ))) (K seed : ℕ) (bp csq : ℚ) :
    (initalise_robust_pca_param svdFn sqrtFn f d data errors K seed bp csq).m =
      (List.range (data.headD []).length).map (fun j => listMean (column data j)) ∧
    (initalise_robust_pca_param svdFn sqrtFn f d data errors K seed bp csq).U =
      (initalise_eigensystem svdFn sqrtFn (mean_subtracted_data data errors).1).1.map
        (fun row => row.take K) ∧
    (initalise_robust_pca_param svdFn sqrtFn f d data errors K seed bp csq).W =
      (initalise_eigensystem svdFn sqrtFn (mean_subtracted_data data errors).1).2.take K ∧
    (initalise_robust_pca_param svdFn sqrtFn f d data errors K seed bp csq).sig2 =
      initalise_scale_using_residuals_sq
        (bootstrapSeedResidualsSq svdFn sqrtFn data errors K seed) bp K f csq ∧
    (initalise_robust_pca_param svdFn sqrtFn f d data errors K seed bp csq).vqu =
      initalise_vqu (bootstrapSeedResidualsSq svdFn sqrtFn data errors K seed)
        (initalise_scale_using_residuals_sq
          (bootstrapSeedResidualsSq svdFn sqrtFn data errors K seed) bp K f csq) d csq :=
  ⟨rfl, rfl, rfl, rfl, rfl⟩

/-! ### C3 -/

/-- C3: the claim says `random_seed` reproducibly determines the shuffled
processing order.  In the source, `np.random.seed = 1` rebinds the module
attribute instead of calling the seeding function, and the `random_seed`
argument is never read, so the run is independent of it: the whole output is
identical for any two seed values over the same ambient generator stream. -/
theorem c3_random_seed_unused (A : RunArgs) (data : List (List ℚ))
    (errors : Option (List (List ℚ))) (K seed passes : ℕ) (fp : Option ℚ)
    (bp mem : ℚ) (save : Bool) (csq : ℚ) (s₁ s₂ : ℤ) :
    run_robust_pca A data errors K seed passes fp bp mem save csq s₁ =
      run_robust_pca A data errors K seed passes fp bp mem save csq s₂ := rfl

/-! ### C5 -/

/-- C5: the claim says a distinct fatal DegenerateScale error is raised before
a zero scale² can reach a `t = residual²/scale²` ratio.  Counterexample: on
all-zero seed residuals the initial scale² is 0 and the bootstrap scale and
vqu initialisers run to completion, forming every `t` ratio with the zero
scale (total `ℚ` division models numpy's warning-only division) and returning
degenerate values — no error path exists in the source. -/
theorem c5_counterexample :
    initalise_scale_using_residuals_sq [0, 0] (1 / 2) 2 (fun t _ => 1 / (1 + t))
        ((787 / 1000) ^ 2) = 0 ∧
    initalise_vqu [0, 0] 0 (fun _ _ => 5) 1 = [5, 0, 1] := by
  constructor
  · norm_num [initalise_scale_using_residuals_sq, listMean, List.range_succ]
  · norm_num [initalise_vqu, listMean]

/-- C5 (amended): no degeneracy check exists; with any all-zero (nonempty)
seed squared-residual vector the scale initialiser silently returns the
degenerate value 0 after all its rounds, and the vqu initialiser likewise
computes its statistics from `t = residual²/scale²` with the zero scale and
returns normally. -/
theorem c5_zero_scale_propagates (n K : ℕ) (bp csq : ℚ) (f d : ℚ → ℚ → ℚ) :
    initalise_scale_using_residuals_sq (List.replicate (n + 1) 0) bp K f csq = 0 ∧
    initalise_vqu (List.replicate (n + 1) 0) 0 d csq = [d 0 csq, 0, 1] := by
  constructor
  · show (List.range K).foldl _ _ = 0
    rw [show listMean (List.replicate (n + 1) (0 : ℚ)) = 0 from
      listMean_replicate_zero (n + 1)]
    rw [foldl_const_eq_iterate
      (fun s => s * (listMean ((List.replicate (n + 1) (0:ℚ)).map
        (fun r => f (r / s) csq)) / bp)) K 0]
    exact Function.iterate_fixed (by simp) K
  · have h2 : List.zipWith (fun w r : ℚ => w * r) (List.replicate (n + 1) (d 0 csq))
        (List.replicate (n + 1) (0 : ℚ)) = List.replicate (n + 1) 0 := by
      rw [List.zipWith_replicate']
      simp
    simp only [initalise_vqu, List.map_replicate, zero_div, List.length_replicate, h2]
    rw [listMean_replicate (n + 1) _ (Nat.succ_ne_zero n),
      listMean_replicate (n + 1) _ (Nat.succ_ne_zero n),
      listMean_replicate (n + 1) _ (Nat.succ_ne_zero n)]

/-! ### C6 -/

/-- C6: if the input to the decomposition step contains a non-finite value,
`do_initial_SVD` fails with the source's error message (directing the caller
to pre-sanitize and to mark missingness through the `errors` array); on
all-finite input it returns normally. -/
theorem c6_nonfinite_input_rejected (svdFn : List (List ℚ) → List ℚ × List (List ℚ))
    (data : List (List PyFloat)) :
    ((∃ row ∈ data, ∃ v ∈ row, v.isFinite = false) →
      do_initial_SVD svdFn data = Except.error svd_error_message) ∧
    ((∀ row ∈ data, ∀ v ∈ row, v.isFinite = true) →
      ∃ out, do_initial_SVD svdFn data = Except.ok out) := by
  constructor
  · intro h
    have hall : data.all (fun row => row.all PyFloat.isFinite) = false := by
      rcases h with ⟨row, hrow, v, hv, hfin⟩
      rw [Bool.eq_false_iff]
      intro hc
      rw [List.all_eq_true] at hc
      have hrow' := hc row hrow
      rw [List.all_eq_true] at hrow'
      have hv' := hrow' v hv
      rw [hfin] at hv'
      exact Bool.false_ne_true hv'
    unfold do_initial_SVD np_linalg_svd
    rw [hall]
    rfl
  · intro h
    have hall : data.all (fun row => row.all PyFloat.isFinite) = true := by
      simp only [List.all_eq_true]
      exact h
    unfold do_initial_SVD np_linalg_svd
    rw [hall, if_pos rfl]
    exact ⟨_, rfl⟩

/-- Witness for C6 at concrete inputs: a matrix containing a NaN is rejected
with the exact message, an all-finite matrix is accepted. -/
theorem c6_witness :
    (∃ row ∈ [[PyFloat.num 1, PyFloat.nan]], ∃ v ∈ row, v.isFinite = false) ∧
    do_initial_SVD (fun _ => ([], [])) [[PyFloat.num 1, PyFloat.nan]] =
      Except.error svd_error_message ∧
    (∀ row ∈ [[PyFloat.num 1]], ∀ v ∈ row, v.isFinite = true) ∧
    (∃ out, do_initial_SVD (fun _ => ([], [])) [[PyFloat.num 1]] = Except.ok out) :=
  ⟨by decide,
   (c6_nonfinite_input_rejected (fun _ => ([], [])) [[PyFloat.num 1, PyFloat.nan]]).1
     (by decide),
   by decide,
   (c6_nonfinite_input_rejected (fun _ => ([], [])) [[PyFloat.num 1]]).2 (by decide)⟩

/-! ### C7 -/

/-- C7: the robust scale estimator is exactly the K-fold iterate of the spec's
refinement round, started from the plain mean of the seed squared residuals,
with no convergence test; and the bootstrap invokes it with `amount_of_eigen`
(the number of kept eigenvectors) as the round count, on the seed subset's
squared residuals. -/
theorem c7_scale_fixed_rounds (residuals_sq : List ℚ) (bp csq : ℚ)
    (K seed : ℕ) (f d : ℚ → ℚ → ℚ)
    (svdFn : List (List ℚ) → List ℚ × List (List ℚ)) (sqrtFn : ℚ → ℚ)
    (data : List (List ℚ)) (errors : Option (List (List ℚ))) :
    initalise_scale_using_residuals_sq residuals_sq bp K f csq =
      (scaleRoundSpec residuals_sq bp f csq)^[K] (listMean residuals_sq) ∧
    (initalise_robust_pca_param svdFn sqrtFn f d data errors K seed bp csq).sig2 =
      (scaleRoundSpec (bootstrapSeedResidualsSq svdFn sqrtFn data errors K seed)
        bp f csq)^[K]
        (listMean (bootstrapSeedResidualsSq svdFn sqrtFn data errors K seed)) := by
  have key : ∀ rs : List ℚ,
      initalise_scale_using_residuals_sq rs bp K f csq =
        (scaleRoundSpec rs bp f csq)^[K] (listMean rs) := by
    intro rs
    unfold initalise_scale_using_residuals_sq scaleRoundSpec
    exact foldl_const_eq_iterate _ K _
  exact ⟨key residuals_sq, key _⟩

/-! ### Masking helper lemmas (shared by C8 and C10) -/

theorem nansumSqRow_pairs (l : List (ℚ × ℚ)) :
    nansumSqRow (l.map (fun p => if p.2 = 0 then PyFloat.nan else PyFloat.num p.1)) =
      ((l.filter (fun p => p.2 ≠ 0)).map (fun p => p.1 ^ 2)).sum := by
  induction l with
  | nil => rfl
  | cons a l ih =>
      by_cases h : a.2 = 0
      · simpa [nansumSqRow, List.filter_cons, h] using ih
      · simpa [nansumSqRow, List.filter_cons, h] using ih

theorem nansumSqRow_maskRow (r m : List ℚ) :
    nansumSqRow (maskRow r m) = maskedSumSpec r m :=
  nansumSqRow_pairs (r.zip m)

theorem maskRow_append (r₁ s m₁ t : List ℚ) (h : r₁.length = m₁.length) :
    maskRow (r₁ ++ s) (m₁ ++ t) = maskRow r₁ m₁ ++ maskRow s t := by
  unfold maskRow
  rw [List.zip_append h, List.map_append]

theorem maskRow_cons_zero (x : ℚ) (r m : List ℚ) :
    maskRow (x :: r) (0 :: m) = PyFloat.nan :: maskRow r m := by
  simp [maskRow]

theorem maskRow_no_zero (r m : List ℚ) (h : (0 : ℚ) ∉ m) (hlen : r.length = m.length) :
    maskRow r m = r.map PyFloat.num := by
  unfold maskRow
  have h1 : ∀ p ∈ r.zip m,
      (if p.2 = 0 then PyFloat.nan else PyFloat.num p.1) = PyFloat.num p.1 := by
    intro p hp
    rw [if_neg]
    intro he
    exact h (he ▸ (List.of_mem_zip hp).2)
  rw [List.map_congr_left h1]
  calc (r.zip m).map (fun p => PyFloat.num p.1)
      = ((r.zip m).map Prod.fst).map PyFloat.num := by rw [List.map_map]; rfl
    _ = r.map PyFloat.num := by rw [List.map_fst_zip r m (le_of_eq hlen)]

theorem nansumSqRow_append (a b : List PyFloat) :
    nansumSqRow (a ++ b) = nansumSqRow a + nansumSqRow b := by
  simp [nansumSqRow, List.filterMap_append]

theorem nansumSqRow_nan_cons (b : List PyFloat) :
    nansumSqRow (PyFloat.nan :: b) = nansumSqRow b := by
  simp [nansumSqRow]

theorem nansumSqRow_map_num (r : List ℚ) :
    nansumSqRow (r.map PyFloat.num) = (r.map (fun a => a ^ 2)).sum := by
  induction r with
  | nil => rfl
  | cons a l ih => simpa [nansumSqRow] using ih

theorem mask_matrix_no_zero : ∀ (residuals em : List (List ℚ)),
    residuals.length = em.length →
    (∀ p ∈ residuals.zip em, p.1.length = p.2.length) →
    (∀ mrow ∈ em, (0 : ℚ) ∉ mrow) →
    (residuals.zip em).map (fun p => maskRow p.1 p.2) =
      residuals.map (fun r => r.map PyFloat.num) := by
  intro residuals
  induction residuals with
  | nil => intro em _ _ _; rfl
  | cons r rs ih =>
      intro em hlen hrows hno
      cases em with
      | nil => simp at hlen
      | cons m ms =>
          have hhead : r.length = m.length :=
            hrows (r, m) (by simp [List.zip_cons_cons])
          have hzero : (0 : ℚ) ∉ m := hno m (by simp)
          simp only [List.zip_cons_cons, List.map_cons]
          rw [maskRow_no_zero r m hzero hhead]
          congr 1
          exact ih ms (by simpa using hlen)
            (fun p hp => hrows p (by simp [List.zip_cons_cons, hp]))
            (fun mrow hm => hno mrow (by simp [hm]))

/-! ### C8 -/

/-- C8: the masked squared-magnitude residual equals, per observation, the sum
of squared entries over the features the mask does not flag bad (flagged
entries are forced to NaN and ignored by the sum); a mask with more rows than
the residual matrix acts only through its leading slice; and with a mask
having exactly one zero entry the result is the squared residual of the
remaining entries. -/
theorem c8_masked_residual (residuals em : List (List ℚ)) (r₁ r₂ m₁ m₂ : List ℚ)
    (x : ℚ) (h₁ : (0 : ℚ) ∉ m₁) (h₂ : (0 : ℚ) ∉ m₂) (h₃ : r₁.length = m₁.length)
    (h₄ : r₂.length = m₂.length) :
    (mag_residual_sq residuals (some em)).1 =
      (residuals.zip (em.take residuals.length)).map (fun p => maskedSumSpec p.1 p.2) ∧
    mag_residual_sq residuals (some em) =
      mag_residual_sq residuals (some (em.take residuals.length)) ∧
    (mag_residual_sq [r₁ ++ x :: r₂] (some [m₁ ++ 0 :: m₂])).1 =
      [(r₁.map (fun a => a ^ 2)).sum + (r₂.map (fun a => a ^ 2)).sum] := by
  refine ⟨?_, ?_, ?_⟩
  · simp only [mag_residual_sq, List.map_map]
    exact List.map_congr_left (fun p _ => nansumSqRow_maskRow p.1 p.2)
  · simp only [mag_residual_sq, List.take_take, min_self]
  · simp only [mag_residual_sq, List.length_cons, List.length_nil, List.take,
      List.zip_cons_cons, List.zip_nil_right, List.map_cons, List.map_nil]
    rw [maskRow_append r₁ (x :: r₂) m₁ (0 :: m₂) h₃, maskRow_cons_zero,
      nansumSqRow_append, nansumSqRow_nan_cons,
      maskRow_no_zero r₁ m₁ h₁ h₃, maskRow_no_zero r₂ m₂ h₂ h₄,
      nansumSqRow_map_num, nansumSqRow_map_num]

/-- Witness for C8 at concrete inputs: `[[1,2,3]]` with mask `[[1,0,2]]` gives
`[1² + 3²] = [10]`. -/
theorem c8_witness :
    ((0 : ℚ) ∉ ([1] : List ℚ)) ∧ ((0 : ℚ) ∉ ([2] : List ℚ)) ∧
    (([1] : List ℚ).length = ([1] : List ℚ).length) ∧
    (([3] : List ℚ).length = ([2] : List ℚ).length) ∧
    ((mag_residual_sq [[(1 : ℚ), 5]] (some [[1, 1], [9, 9]])).1 =
      ([[(1 : ℚ), 5]].zip ([[(1 : ℚ), 1], [9, 9]].take [[(1 : ℚ), 5]].length)).map
        (fun p => maskedSumSpec p.1 p.2) ∧
    mag_residual_sq [[(1 : ℚ), 5]] (some [[1, 1], [9, 9]]) =
      mag_residual_sq [[(1 : ℚ), 5]]
        (some ([[(1 : ℚ), 1], [9, 9]].take [[(1 : ℚ), 5]].length)) ∧
    (mag_residual_sq [[(1 : ℚ)] ++ 2 :: [3]] (some [[(1 : ℚ)] ++ 0 :: [2]])).1 =
      [(([1] : List ℚ).map (fun a => a ^ 2)).sum + (([3] : List ℚ).map (fun a => a ^ 2)).sum]) := by
  refine ⟨by norm_num, by norm_num, rfl, rfl, ?_⟩
  exact c8_masked_residual [[(1 : ℚ), 5]] [[1, 1], [9, 9]] [1] [3] [1] [2] 2
    (by norm_num) (by norm_num) rfl rfl

/-! ### C10 -/

/-- C10: the embedding of `mag_residual_sq` returns the post-call residuals
buffer alongside its value, modelling the in-place numpy assignment
`residuals[error_map==0] = np.nan`.  With no mask the buffer is the caller's
residuals unchanged; with a mask having no zero entry it is likewise
unchanged; with a zero entry at a masked position, that position of the
caller's buffer now holds NaN. -/
theorem c10_in_place_mutation :
    (∀ residuals : List (List ℚ),
      (mag_residual_sq residuals none).2 = residuals.map (fun r => r.map PyFloat.num)) ∧
    (∀ residuals em : List (List ℚ), residuals.length = em.length →
      (∀ p ∈ residuals.zip em, p.1.length = p.2.length) →
      (∀ mrow ∈ em, (0 : ℚ) ∉ mrow) →
      (mag_residual_sq residuals (some em)).2 = residuals.map (fun r => r.map PyFloat.num)) ∧
    (∀ (R₁ R₂ M₁ M₂ : List (List ℚ)) (r₁ r₂ m₁ m₂ : List ℚ) (x : ℚ),
      R₁.length = M₁.length → R₂.length = M₂.length → r₁.length = m₁.length →
      (mag_residual_sq (R₁ ++ (r₁ ++ x :: r₂) :: R₂)
          (some (M₁ ++ (m₁ ++ 0 :: m₂) :: M₂))).2 =
        (R₁.zip M₁).map (fun p => maskRow p.1 p.2) ++
          (maskRow r₁ m₁ ++ PyFloat.nan :: maskRow r₂ m₂) ::
            (R₂.zip M₂).map (fun p => maskRow p.1 p.2)) := by
  refine ⟨fun residuals => rfl, ?_, ?_⟩
  · intro residuals em hlen hrows hno
    simp only [mag_residual_sq]
    rw [hlen, List.take_length]
    exact mask_matrix_no_zero residuals em hlen hrows hno
  · intro R₁ R₂ M₁ M₂ r₁ r₂ m₁ m₂ x hR hR' hr
    have hlen : (R₁ ++ (r₁ ++ x :: r₂) :: R₂).length =
        (M₁ ++ (m₁ ++ 0 :: m₂) :: M₂).length := by
      simp [hR, hR']
    simp only [mag_residual_sq]
    rw [hlen, List.take_length, List.zip_append hR, List.zip_cons_cons,
      List.map_append, List.map_cons]
    rw [maskRow_append r₁ (x :: r₂) m₁ (0 :: m₂) hr, maskRow_cons_zero]

/-- Witness for C10 at concrete inputs: masking `[[1,2]]` with `[[1,0]]`
overwrites the masked position with NaN in the returned buffer; with no mask
or an all-nonzero mask the buffer is unchanged. -/
theorem c10_witness :
    ((mag_residual_sq [[(1 : ℚ), 2]] none).2 =
      [[(1 : ℚ), 2]].map (fun r => r.map PyFloat.num)) ∧
    (([[(1 : ℚ), 2]] : List (List ℚ)).length = ([[3, 4]] : List (List ℚ)).length) ∧
    ((mag_residual_sq [[(1 : ℚ), 2]] (some [[3, 4]])).2 =
      [[(1 : ℚ), 2]].map (fun r => r.map PyFloat.num)) ∧
    ((mag_residual_sq ([] ++ ([(1 : ℚ)] ++ 2 :: []) :: [])
        (some ([] ++ ([(1 : ℚ)] ++ 0 :: []) :: []))).2 =
      ((([] : List (List ℚ)).zip ([] : List (List ℚ))).map (fun p => maskRow p.1 p.2)) ++
        (maskRow [1] [1] ++ PyFloat.nan :: maskRow [] []) ::
          (([] : List (List ℚ)).zip ([] : List (List ℚ))).map (fun p => maskRow p.1 p.2)) := by
  refine ⟨c10_in_place_mutation.1 [[(1 : ℚ), 2]], rfl, ?_, ?_⟩
  · exact c10_in_place_mutation.2.1 [[(1 : ℚ), 2]] [[3, 4]] rfl
      (by intro p hp; simp at hp; subst hp; rfl)
      (by intro mrow hm; simp at hm; rw [hm]; norm_num)
  · exact c10_in_place_mutation.2.2 [] [] [] [] [1] [] [1] [] 2 rfl rfl rfl

/-! ### C9 -/

theorem applyPerm_getElem {γ : Type} (xs : List γ) :
    ∀ (perm : List ℕ) (i j : ℕ), perm[i]? = some j → (∀ k ∈ perm, k < xs.length) →
      (applyPerm perm xs)[i]? = xs[j]? := by
  intro perm
  induction perm with
  | nil => intro i j h _; simp at h
  | cons p ps ih =>
      intro i j h hk
      have hp : p < xs.length := hk p (List.mem_cons_self p ps)
      have hx : xs[p]? = some xs[p] := List.getElem?_eq_getElem hp
      have happ : applyPerm (p :: ps) xs = xs[p] :: applyPerm ps xs := by
        simp only [applyPerm, List.filterMap_cons, hx]
      cases i with
      | zero =>
          rw [List.getElem?_cons_zero] at h
          cases h
          rw [happ, List.getElem?_cons_zero, hx]
      | succ i =>
          rw [List.getElem?_cons_succ] at h
          rw [happ, List.getElem?_cons_succ]
          exact ih i j h (fun k hk' => hk k (List.mem_cons_of_mem p hk'))

/-- C9: the data-order randomizer applies one and the same permutation to the
observations and (when a mask array is present) to the mask, preserving the
index pairing: every output position holds `(data[j], mask[j])` for the same
original `j`; with no mask the mask output is `None` unchanged. -/
theorem c9_randomise_pairing {α β : Type} (data : List α) (es : List β) (perm : List ℕ)
    (hperm : perm.Perm (List.range data.length)) (hlen : es.length = data.length) :
    (randomise_data_order (fun _ => false) perm data (some es)).1 = applyPerm perm data ∧
    (randomise_data_order (fun _ => false) perm data (some es)).2 =
      some (applyPerm perm es) ∧
    (∀ i, i < data.length →
      ∃ j : ℕ, (applyPerm perm data)[i]? = data[j]? ∧ (applyPerm perm es)[i]? = es[j]?) ∧
    (∀ isN : β → Bool, (randomise_data_order isN perm data none).2 = none) := by
  have hbound : ∀ k ∈ perm, k < data.length := by
    intro k hk
    exact List.mem_range.mp (hperm.mem_iff.mp hk)
  refine ⟨?_, ?_, ?_, fun isN => rfl⟩
  · cases es <;> rfl
  · cases es <;> rfl
  · intro i hi
    have hplen : perm.length = data.length := by
      rw [hperm.length_eq, List.length_range]
    have hip : i < perm.length := by rw [hplen]; exact hi
    refine ⟨perm[i], ?_, ?_⟩
    · exact applyPerm_getElem data perm i perm[i] (List.getElem?_eq_getElem hip) hbound
    · exact applyPerm_getElem es perm i perm[i] (List.getElem?_eq_getElem hip)
        (fun k hk => by rw [hlen]; exact hbound k hk)

/-- Witness for C9 at concrete inputs: the permutation `[1, 0]` applied to
`[10, 20]` and its mask `[5, 6]`. -/
theorem c9_witness :
    ([1, 0] : List ℕ).Perm (List.range ([10, 20] : List ℕ).length) ∧
    (([5, 6] : List ℕ).length = ([10, 20] : List ℕ).length) ∧
    ((randomise_data_order (fun _ => false) [1, 0] [10, 20] (some [5, 6])).1 =
        applyPerm [1, 0] [10, 20] ∧
      (randomise_data_order (fun _ => false) [1, 0] [10, 20] (some [5, 6])).2 =
        some (applyPerm [1, 0] [5, 6]) ∧
      (∀ i, i < ([10, 20] : List ℕ).length →
        ∃ j : ℕ, (applyPerm [1, 0] [10, 20])[i]? = ([10, 20] : List ℕ)[j]? ∧
          (applyPerm [1, 0] [5, 6])[i]? = ([5, 6] : List ℕ)[j]?) ∧
      (∀ isN : ℕ → Bool,
        (randomise_data_order isN [1, 0] [10, 20] (none : Option (List ℕ))).2 = none)) :=
  ⟨by decide, rfl, c9_randomise_pairing [10, 20] [5, 6] [1, 0] (by decide) rfl⟩

/-! ### Orchestrator lemmas (shared by C2 and C4) -/

/-- The observable part of the loop state: the eigen-system, the diagnostic
buffer and the step counter (everything except the shuffled data order). -/
def stateProj (st : LoopState) : EigenSystemDict × TrackedDict × ℕ :=
  (st.esd, st.tracked, st.counter)

theorem run_passes_zero (perms : ℕ → List ℕ) (pf : PcaFn) (fp bp cs : ℚ)
    (sa N start si : ℕ) (st : LoopState) :
    run_passes perms pf fp bp cs sa N start si 0 st = st := rfl

theorem run_passes_succ (perms : ℕ → List ℕ) (pf : PcaFn) (fp bp cs : ℚ)
    (sa N start si r : ℕ) (st : LoopState) :
    run_passes perms pf fp bp cs sa N start si (r + 1) st =
      run_passes perms pf fp bp cs sa N 0 (si + 1) r
        (shuffle_state (perms si)
          (run_pass pf fp bp cs sa (List.range' start (N - start)) st)) := rfl

theorem stateProj_shuffle (p : List ℕ) (st : LoopState) :
    stateProj (shuffle_state p st) = stateProj st := rfl

theorem pca_step_counter (pf : PcaFn) (fp bp cs : ℚ) (sa : ℕ) (st : LoopState) (sp : ℕ) :
    (pca_step pf fp bp cs sa st sp).counter = st.counter + 1 := rfl

theorem run_pass_counter (pf : PcaFn) (fp bp cs : ℚ) (sa : ℕ) :
    ∀ (idxs : List ℕ) (st : LoopState),
      (run_pass pf fp bp cs sa idxs st).counter = st.counter + idxs.length := by
  intro idxs
  induction idxs with
  | nil => intro st; rfl
  | cons a l ih =>
      intro st
      show (run_pass pf fp bp cs sa l (pca_step pf fp bp cs sa st a)).counter = _
      rw [ih, pca_step_counter, List.length_cons]
      omega

theorem shuffle_state_counter (p : List ℕ) (st : LoopState) :
    (shuffle_state p st).counter = st.counter := rfl

theorem run_passes_counter_zero_start (perms : ℕ → List ℕ) (pf : PcaFn)
    (fp bp cs : ℚ) (sa N : ℕ) : ∀ (r si : ℕ) (st : LoopState),
    (run_passes perms pf fp bp cs sa N 0 si r st).counter = st.counter + r * N := by
  intro r
  induction r with
  | zero =>
      intro si st
      rw [run_passes_zero]
      omega
  | succ k ih =>
      intro si st
      rw [run_passes_succ, ih, shuffle_state_counter, run_pass_counter,
        List.length_range']
      have hmul : (k + 1) * N = k * N + N := by ring
      rw [hmul]
      omega

theorem run_passes_counter (perms : ℕ → List ℕ) (pf : PcaFn) (fp bp cs : ℚ)
    (sa N start si r : ℕ) (st : LoopState) (hr : 1 ≤ r) :
    (run_passes perms pf fp bp cs sa N start si r st).counter =
      st.counter + (N - start) + (r - 1) * N := by
  obtain ⟨k, rfl⟩ : ∃ k, r = k + 1 := ⟨r - 1, by omega⟩
  rw [run_passes_succ, run_passes_counter_zero_start, shuffle_state_counter,
    run_pass_counter, List.length_range']
  simp only [Nat.add_sub_cancel]

theorem run_setup_counter (A : RunArgs) (data : List (List ℚ))
    (errors : Option (List (List ℚ))) (K seed : ℕ) (bp : ℚ) :
    (run_setup A data errors K seed bp).counter = 0 := rfl

/-- The diagnostic buffer holds exactly `sa` rows in each of its arrays. -/
def trackedSized (sa : ℕ) (t : TrackedDict) : Prop :=
  t.W.length = sa ∧ t.sig2.length = sa ∧ t.vqu.length = sa

theorem track_alloc_sized (esd : EigenSystemDict) (t : TrackedDict) (sa : ℕ) :
    trackedSized sa (track_eigensystem_updates 0 esd t sa).1 := by
  refine ⟨?_, ?_, ?_⟩ <;>
    simp [track_eigensystem_updates, initialise_tracked_eigen_updates]

theorem track_preserve_sized (c : ℕ) (esd : EigenSystemDict) (t : TrackedDict)
    (sa : ℕ) (hc : c ≠ 0) :
    (track_eigensystem_updates c esd t sa).1.W.length = t.W.length ∧
    (track_eigensystem_updates c esd t sa).1.sig2.length = t.sig2.length ∧
    (track_eigensystem_updates c esd t sa).1.vqu.length = t.vqu.length := by
  refine ⟨?_, ?_, ?_⟩ <;> simp [track_eigensystem_updates, hc]

/-- Loop invariant: either no step has run yet, or the buffer is allocated at
its final size. -/
def stInv (sa : ℕ) (st : LoopState) : Prop :=
  st.counter = 0 ∨ trackedSized sa st.tracked

theorem pca_step_inv (pf : PcaFn) (fp bp cs : ℚ) (sa : ℕ) (st : LoopState) (sp : ℕ)
    (h : stInv sa st) : trackedSized sa (pca_step pf fp bp cs sa st sp).tracked := by
  by_cases hc : st.counter = 0
  · show trackedSized sa (track_eigensystem_updates st.counter st.esd st.tracked sa).1
    rw [hc]
    exact track_alloc_sized st.esd st.tracked sa
  · rcases h with h | h
    · exact absurd h hc
    · show trackedSized sa (track_eigensystem_updates st.counter st.esd st.tracked sa).1
      have hp := track_preserve_sized st.counter st.esd st.tracked sa hc
      exact ⟨hp.1.trans h.1, hp.2.1.trans h.2.1, hp.2.2.trans h.2.2⟩

theorem run_pass_inv (pf : PcaFn) (fp bp cs : ℚ) (sa : ℕ) :
    ∀ (idxs : List ℕ) (st : LoopState), stInv sa st → stInv sa (run_pass pf fp bp cs sa idxs st) := by
  intro idxs
  induction idxs with
  | nil => intro st h; exact h
  | cons a l ih =>
      intro st h
      show stInv sa (run_pass pf fp bp cs sa l (pca_step pf fp bp cs sa st a))
      exact ih _ (Or.inr (pca_step_inv pf fp bp cs sa st a h))

theorem shuffle_state_inv (p : List ℕ) (st : LoopState) (sa : ℕ) (h : stInv sa st) :
    stInv sa (shuffle_state p st) := h

theorem run_passes_inv (perms : ℕ → List ℕ) (pf : PcaFn) (fp bp cs : ℚ) (sa N : ℕ) :
    ∀ (r start si : ℕ) (st : LoopState), stInv sa st →
      stInv sa (run_passes perms pf fp bp cs sa N start si r st) := by
  intro r
  induction r with
  | zero => intro start si st h; exact h
  | succ k ih =>
      intro start si st h
      rw [run_passes_succ]
      exact ih 0 (si + 1) _ (shuffle_state_inv _ _ sa
        (run_pass_inv pf fp bp cs sa _ st h))

/-! ### C2 -/

/-- C2 (amended): the run performs exactly `N*passes - seed` update steps (one
fewer than the claim's `N*passes - seed + 1`); the diagnostic buffer is
allocated once, at the first step, with exactly `N*passes - seed + 1` rows,
and its row count never changes afterwards. -/
theorem c2_update_count_and_buffer (A : RunArgs) (data : List (List ℚ))
    (errors : Option (List (List ℚ))) (K seed passes : ℕ) (fp : Option ℚ)
    (bp mem csq : ℚ) (s : ℤ) (N : ℕ) (hN : run_N A data errors = N)
    (hseed : seed ≤ N) (hpass : 1 ≤ passes) (hpos : 1 ≤ N * passes - seed) :
    (run_robust_pca_state A data errors K seed passes fp bp mem csq s).counter =
      N * passes - seed ∧
    trackedSized (N * passes - seed + 1)
      (run_robust_pca_state A data errors K seed passes fp bp mem csq s).tracked ∧
    (∀ (esd : EigenSystemDict) (t : TrackedDict),
      trackedSized (N * passes - seed + 1)
        (track_eigensystem_updates 0 esd t (N * passes - seed + 1)).1) ∧
    (∀ (c : ℕ) (esd : EigenSystemDict) (t : TrackedDict) (sa : ℕ), c ≠ 0 →
      ((track_eigensystem_updates c esd t sa).1.W.length = t.W.length ∧
       (track_eigensystem_updates c esd t sa).1.sig2.length = t.sig2.length ∧
       (track_eigensystem_updates c esd t sa).1.vqu.length = t.vqu.length)) := by
  have hcount : (run_robust_pca_state A data errors K seed passes fp bp mem csq s).counter =
      N * passes - seed := by
    show (run_passes A.perms (run_selected_pca A data errors)
      (run_forget A data errors fp mem) bp csq
      (run_N A data errors * passes - seed + 1) (run_N A data errors) seed 1 passes
      (run_setup A data errors K seed bp)).counter = N * passes - seed
    rw [hN, run_passes_counter _ _ _ _ _ _ _ _ _ _ _ hpass, run_setup_counter]
    have harith : ∀ p : ℕ, 1 ≤ p → 0 + (N - seed) + (p - 1) * N = N * p - seed := by
      intro p hp
      rcases p with _ | k
      · omega
      · simp only [Nat.add_sub_cancel]
        have hmul : N * (k + 1) = k * N + N := by ring
        rw [hmul]
        omega
    exact harith passes hpass
  refine ⟨hcount, ?_, fun esd t => track_alloc_sized esd t _,
    fun c esd t sa hc => track_preserve_sized c esd t sa hc⟩
  have hinv : stInv (N * passes - seed + 1)
      (run_robust_pca_state A data errors K seed passes fp bp mem csq s) := by
    show stInv _ (run_passes A.perms (run_selected_pca A data errors)
      (run_forget A data errors fp mem) bp csq
      (run_N A data errors * passes - seed + 1) (run_N A data errors) seed 1 passes
      (run_setup A data errors K seed bp))
    rw [hN]
    exact run_passes_inv _ _ _ _ _ _ _ passes seed 1 _ (Or.inl (run_setup_counter A data errors K seed bp))
  rcases hinv with h | h
  · rw [hcount] at h
    omega
  · exact h

/-- Concrete arguments for the C2 counterexample configuration. -/
def c2Args : RunArgs :=
  { sanitizeFn := id, pcaFn := fun st _ _ _ _ _ => st, pcaGapFn := fun st _ _ _ _ _ => st,
    svdFn := fun _ => ([], []), sqrtFn := id, robustF := fun _ _ => 1,
    robustD := fun _ _ => 1, perms := fun _ => List.range 1000 }

/-- C2: the claim says the configuration `N=1000, seed_size=200,
number_of_passes=5` performs exactly `4801` update steps.  Counterexample: the
run performs `(1000-200) + 4*1000 = 4800` state transitions — the diagnostic
buffer does have `4801` rows, one more than the number of steps, and its last
row is never written. -/
theorem c2_counterexample :
    (run_robust_pca_state c2Args (List.replicate 1000 [0]) none 100 200 5 none
      (1 / 2) 1 ((787 / 1000) ^ 2) 1).counter = 4800 ∧ (4800 : ℕ) ≠ 4801 := by
  constructor
  · have hN : run_N c2Args (List.replicate 1000 [0]) none = 1000 :=
      List.length_replicate 1000 [0]
    show (run_passes c2Args.perms _ _ _ _ _ (run_N c2Args (List.replicate 1000 [0]) none)
      200 1 5 _).counter = 4800
    rw [hN, run_passes_counter _ _ _ _ _ _ _ _ _ _ _ (by norm_num), run_setup_counter]
  · omega

/-- Concrete arguments for the C2 witness configuration (`N = 3`). -/
def c2SmallArgs : RunArgs :=
  { sanitizeFn := id, pcaFn := fun st _ _ _ _ _ => st, pcaGapFn := fun st _ _ _ _ _ => st,
    svdFn := fun _ => ([], []), sqrtFn := id, robustF := fun _ _ => 1,
    robustD := fun _ _ => 1, perms := fun _ => List.range 3 }

/-- Witness for the amended C2 at `N=3, seed=1, passes=2`: `5` steps, `6`
buffer rows. -/
theorem c2_witness :
    run_N c2SmallArgs [[1], [2], [3]] none = 3 ∧ (1 : ℕ) ≤ 3 ∧ (1 : ℕ) ≤ 2 ∧
    (1 : ℕ) ≤ 3 * 2 - 1 ∧
    ((run_robust_pca_state c2SmallArgs [[1], [2], [3]] none 0 1 2 none (1 / 2) 1 1
        1).counter = 3 * 2 - 1 ∧
      trackedSized (3 * 2 - 1 + 1)
        (run_robust_pca_state c2SmallArgs [[1], [2], [3]] none 0 1 2 none (1 / 2) 1 1
          1).tracked ∧
      (∀ (esd : EigenSystemDict) (t : TrackedDict),
        trackedSized (3 * 2 - 1 + 1)
          (track_eigensystem_updates 0 esd t (3 * 2 - 1 + 1)).1) ∧
      (∀ (c : ℕ) (esd : EigenSystemDict) (t : TrackedDict) (sa : ℕ), c ≠ 0 →
        ((track_eigensystem_updates c esd t sa).1.W.length = t.W.length ∧
         (track_eigensystem_updates c esd t sa).1.sig2.length = t.sig2.length ∧
         (track_eigensystem_updates c esd t sa).1.vqu.length = t.vqu.length))) :=
  ⟨rfl, by norm_num, by norm_num, by norm_num,
   c2_update_count_and_buffer c2SmallArgs [[1], [2], [3]] none 0 1 2 none (1 / 2) 1 1 1
     3 rfl (by norm_num) (by norm_num) (by norm_num)⟩

/-! ### C4 -/

/-- The index range the spec prescribes for pass `k`: pass 0 processes the
indices from the seed size through `N - 1`, every later pass the full range
`0..N-1`. -/
def specPassIdxs (N seed k : ℕ) : List ℕ :=
  if k = 0 then List.range' seed (N - seed) else List.range N

/-- The spec's formulation of the pass loop: before every pass after the
first, reshuffle with a fresh permutation; then process exactly the pass's
index range, one recorded state transition per observation. -/
def spec_run (perms : ℕ → List ℕ) (pcaFn : PcaFn) (fp bp cs : ℚ) (sa N seed : ℕ) :
    ℕ → ℕ → LoopState → LoopState
  | _, 0, st => st
  | k, r + 1, st =>
      let st0 := if k = 0 then st else shuffle_state (perms k) st
      let st1 := run_pass pcaFn fp bp cs sa (specPassIdxs N seed k) st0
      spec_run perms pcaFn fp bp cs sa N seed (k + 1) r st1

theorem spec_run_zero (perms : ℕ → List ℕ) (pf : PcaFn) (fp bp cs : ℚ)
    (sa N seed k : ℕ) (st : LoopState) :
    spec_run perms pf fp bp cs sa N seed k 0 st = st := rfl

theorem spec_run_succ (perms : ℕ → List ℕ) (pf : PcaFn) (fp bp cs : ℚ)
    (sa N seed k r : ℕ) (st : LoopState) :
    spec_run perms pf fp bp cs sa N seed k (r + 1) st =
      spec_run perms pf fp bp cs sa N seed (k + 1) r
        (run_pass pf fp bp cs sa (specPassIdxs N seed k)
          (if k = 0 then st else shuffle_state (perms k) st)) := rfl

theorem run_passes_spec_aligned (perms : ℕ → List ℕ) (pf : PcaFn) (fp bp cs : ℚ)
    (sa N seed : ℕ) : ∀ (r k : ℕ) (st : LoopState),
    stateProj (run_passes perms pf fp bp cs sa N 0 (k + 2) r
        (shuffle_state (perms (k + 1)) st)) =
      stateProj (spec_run perms pf fp bp cs sa N seed (k + 1) r st) := by
  intro r
  induction r with
  | zero =>
      intro k st
      rw [run_passes_zero, spec_run_zero, stateProj_shuffle]
  | succ r ih =>
      intro k st
      rw [run_passes_succ, spec_run_succ, if_neg (Nat.succ_ne_zero k)]
      have hidx : specPassIdxs N seed (k + 1) = List.range' 0 (N - 0) := by
        rw [specPassIdxs, if_neg (Nat.succ_ne_zero k), Nat.sub_zero,
          List.range_eq_range']
      rw [hidx]
      exact ih (k + 1) (run_pass pf fp bp cs sa (List.range' 0 (N - 0))
        (shuffle_state (perms (k + 1)) st))

theorem run_passes_refines_spec (perms : ℕ → List ℕ) (pf : PcaFn) (fp bp cs : ℚ)
    (sa N seed passes : ℕ) (st : LoopState) :
    stateProj (run_passes perms pf fp bp cs sa N seed 1 passes st) =
      stateProj (spec_run perms pf fp bp cs sa N seed 0 passes st) := by
  cases passes with
  | zero => rfl
  | succ r =>
      rw [run_passes_succ, spec_run_succ, if_pos rfl]
      have hidx : specPassIdxs N seed 0 = List.range' seed (N - seed) := by
        rw [specPassIdxs, if_pos rfl]
      rw [hidx]
      exact run_passes_spec_aligned perms pf fp bp cs sa N seed r 0
        (run_pass pf fp bp cs sa (List.range' seed (N - seed)) st)

/-- C4: up to the unobservable data order left behind by the trailing
end-of-run shuffle, the source's pass loop coincides with the spec's: pass 0
processes exactly the indices `seed..N-1` of the shuffled data, every later
pass the full range `0..N-1` after a fresh reshuffle; each processed
observation triggers exactly one external state transition, and the
pre-transition eigenvalues, scale² and v-statistic are recorded as one
diagnostic row before the transition is applied. -/
theorem c4_pass_structure (A : RunArgs) (data : List (List ℚ))
    (errors : Option (List (List ℚ))) (K seed passes : ℕ) (fp : Option ℚ)
    (bp mem csq : ℚ) (s : ℤ) :
    stateProj (run_robust_pca_state A data errors K seed passes fp bp mem csq s) =
      stateProj (spec_run A.perms (run_selected_pca A data errors)
        (run_forget A data errors fp mem) bp csq
        (run_N A data errors * passes - seed + 1) (run_N A data errors) seed 0 passes
        (run_setup A data errors K seed bp)) ∧
    specPassIdxs (run_N A data errors) seed 0 =
      List.range' seed (run_N A data errors - seed) ∧
    (∀ k, k ≠ 0 →
      specPassIdxs (run_N A data errors) seed k = List.range (run_N A data errors)) ∧
    (∀ (pf : PcaFn) (fp' bp' cs' : ℚ) (sa' : ℕ) (st : LoopState) (sp : ℕ),
      stateProj (pca_step pf fp' bp' cs' sa' st sp) =
        (pf st.esd (st.data.getD sp []) fp' (st.errs.getD sp none) bp' cs',
         (track_eigensystem_updates st.counter st.esd st.tracked sa').1,
         st.counter + 1)) := by
  refine ⟨?_, ?_, ?_, fun pf fp' bp' cs' sa' st sp => rfl⟩
  · exact run_passes_refines_spec A.perms (run_selected_pca A data errors)
      (run_forget A data errors fp mem) bp csq
      (run_N A data errors * passes - seed + 1) (run_N A data errors) seed passes
      (run_setup A data errors K seed bp)
  · rw [specPassIdxs, if_pos rfl]
  · intro k hk
    rw [specPassIdxs, if_neg hk]

end RobustPCA
